import Mathlib

/-!
# Talkpleganger — Chat Log Ingestion & Analysis Engine, formalized

This file gives a shallow embedding of the ingestion core of the
`talkpleganger` repository (encoding detection, message segmentation,
participant resolution, timing analysis) together with the persona-page
frontend logic (`frontend/src/api.js`, `frontend/src/pages/PersonaPage.jsx`),
and proves the specification's correctness properties about it.

The Python backend (`app/services/kakao_parser.py`,
`app/services/timing_service.py`) is not part of the source tree available
here; only its project documentation (the `CLAUDE.md` guides, which quote
`EncodingDetector.ENCODINGS` and the time-of-day table) and its frontend
callers are.  Definitions for those components are therefore modelled from
the specification, and are marked as such in their doc comments.
-/

namespace Talkpleganger

/-- The tagged fatal errors of the ingestion core (spec §6/§7):
`UnsupportedEncoding` carries the list of attempted encodings. -/
inductive ParseError where
  | unsupportedEncoding (attempted : List String)
  | unrecognizedFormat
  | selfNameNotFound
deriving DecidableEq, Repr

/-! ## EncodingDetector -/

/-- The ordered candidate encoding list, as documented in the project guide
(`class EncodingDetector: ENCODINGS = ['utf-8-sig', 'utf-8', 'cp949',
'euc-kr', 'utf-16', 'utf-16-le', 'utf-16-be']`). -/
def ENCODINGS : List String :=
  ["utf-8-sig", "utf-8", "cp949", "euc-kr", "utf-16", "utf-16-le", "utf-16-be"]

/-- Modelled from the spec: the normalization pass "strips any leading BOM
character left in the text" (§4.1).  Leading U+FEFF characters are dropped. -/
def stripLeadingBOM (cs : List Char) : List Char :=
  cs.dropWhile (fun c => c = '\uFEFF')

/-- Modelled from the spec: the first half of line-ending normalization,
rewriting each CRLF pair to a single LF (§4.1). -/
def collapseCRLF : List Char → List Char
  | '\r' :: '\n' :: rest => '\n' :: collapseCRLF rest
  | c :: rest => c :: collapseCRLF rest
  | [] => []

/-- Modelled from the spec: the second half of line-ending normalization,
rewriting any remaining lone CR to LF (§4.1). -/
def crToLf (c : Char) : Char :=
  if c = '\r' then '\n' else c

/-- Modelled from the spec: the full normalization pass of the
EncodingDetector — strip a leading BOM, then rewrite all CRLF/CR line
endings to the single-LF convention (§4.1). -/
def normalizeText (cs : List Char) : List Char :=
  (collapseCRLF (stripLeadingBOM cs)).map crToLf

/-- Decoded text together with the name of the successful encoding
(spec §3, `DecodedText`). -/
structure DecodedText where
  content : List Char
  encoding_used : String
deriving DecidableEq, Repr

/-- Modelled from the spec: try each candidate encoding in the given order
and accept the first that decodes the full byte stream without a decode
error (§4.1).  The codecs themselves are a parameter `decode`: a codec
returns `none` exactly when it raises a decode error somewhere in the
stream, and `some text` only for a clean full-stream decode. -/
def tryEncodings (decode : String → List Nat → Option (List Char))
    (bytes : List Nat) : List String → Option (String × List Char)
  | [] => none
  | e :: rest =>
    match decode e bytes with
    | some t => some (e, t)
    | none => tryEncodings decode bytes rest

/-- Modelled from the spec: the EncodingDetector — tries `ENCODINGS` in
order, returns the normalized text and the successful encoding name, or
fails closed with `UnsupportedEncoding` carrying the attempted list
(§4.1). -/
def detectEncoding (decode : String → List Nat → Option (List Char))
    (bytes : List Nat) : Except ParseError DecodedText :=
  match tryEncodings decode bytes ENCODINGS with
  | some (e, t) => .ok ⟨normalizeText t, e⟩
  | none => .error (.unsupportedEncoding ENCODINGS)

/-! ## MessageSegmenter -/

/-- Modelled from the spec: the result of the per-line classifier — a line
that matches the "new message" pattern yields the parsed speaker, the
timestamp when it parsed (`none` on locale variance, §4.2 edge case), and
the message text carried on the header line itself. -/
structure HeaderInfo where
  speaker : String
  timestamp : Option Nat
  body : String
deriving DecidableEq, Repr

/-- A parsed message record (spec §3): speaker display name, advisory
timestamp (minutes), and the possibly multi-line content, kept as its list
of lines with the header line's own text first. -/
structure MessageRecord where
  speaker_name : String
  timestamp : Option Nat
  content : List String
deriving DecidableEq, Repr

/-- Modelled from the spec: one transition of the two-state segmentation
machine (§4.3, design note §9).  The state is the flushed records plus the
in-progress message.  A header line flushes the in-progress message and
starts a new one; a non-header line extends the in-progress message, or is
discarded when no message has started yet. -/
def segmentStep (classify : String → Option HeaderInfo)
    (st : List MessageRecord × Option MessageRecord) (line : String) :
    List MessageRecord × Option MessageRecord :=
  match classify line with
  | some h => (st.1 ++ st.2.toList, some ⟨h.speaker, h.timestamp, [h.body]⟩)
  | none =>
    match st.2 with
    | some m => (st.1, some { m with content := m.content ++ [line] })
    | none => st

/-- The segmentation machine run from a given state over a list of lines. -/
def segRun (classify : String → Option HeaderInfo)
    (st : List MessageRecord × Option MessageRecord) (lines : List String) :
    List MessageRecord × Option MessageRecord :=
  lines.foldl (segmentStep classify) st

/-- The records of a final segmentation state: the flushed records followed
by the still-in-progress message, if any. -/
def segOut (st : List MessageRecord × Option MessageRecord) :
    List MessageRecord :=
  st.1 ++ st.2.toList

/-- Modelled from the spec: the MessageSegmenter — run the line classifier
over the normalized text's lines; a file with zero recognized headers fails
with `UnrecognizedFormat` rather than returning an empty sequence (§4.2). -/
def segmentMessages (classify : String → Option HeaderInfo)
    (lines : List String) : Except ParseError (List MessageRecord) :=
  let records := segOut (segRun classify ([], none) lines)
  if records.isEmpty then .error .unrecognizedFormat else .ok records

/-- The content lines of a record sequence, concatenated in order. -/
def flattenContents (rs : List MessageRecord) : List String :=
  (rs.map MessageRecord.content).flatten

/-- What one input line contributes to the reconstructed content: a header
line contributes the message text it carries, any other line contributes
itself. -/
def lineBody (classify : String → Option HeaderInfo) (l : String) : String :=
  match classify l with
  | some h => h.body
  | none => l

/-- The lines the segmenter keeps, as contributed content: with a message
in progress every line contributes; before the first header, leading
non-header lines (export banners) are discarded (§4.2). -/
def processedLines (classify : String → Option HeaderInfo) (inMsg : Bool)
    (lines : List String) : List String :=
  if inMsg then lines.map (lineBody classify)
  else (lines.dropWhile (fun l => (classify l).isNone)).map (lineBody classify)

/-! ## ParticipantResolver -/

/-- Is the character structural whitespace for name trimming purposes? -/
def isSpaceChar (c : Char) : Bool :=
  c = ' ' ∨ c = '\t' ∨ c = '\n' ∨ c = '\r'

/-- Drop leading and trailing whitespace from a character list. -/
def trimChars (cs : List Char) : List Char :=
  ((cs.dropWhile isSpaceChar).reverse.dropWhile isSpaceChar).reverse

/-- Modelled from the spec: the case- and whitespace-normalization used
when tallying speakers and for the forgiving self-name fallback match
(§4.3): trim surrounding whitespace and lower-case. -/
def normName (s : String) : String :=
  String.mk ((trimChars s.data).map Char.toLower)

/-- The distinct observed speaker display names, in order of first
appearance (§4.3 "tally distinct speaker_name values"). -/
def observedSpeakers (records : List MessageRecord) : List String :=
  (records.map MessageRecord.speaker_name).dedup

/-- Modelled from the spec: match the declared self name against the
observed speakers — exact match first, then the forgiving
trimmed/case-insensitive fallback (§4.3). -/
def findSelf (self_name : String) (speakers : List String) : Option String :=
  match speakers.find? (fun s => s == self_name) with
  | some s => some s
  | none => speakers.find? (fun s => normName s == normName self_name)

/-- A message's resolved role (spec §3): `self`, or the literal speaker
identity for non-self speakers (not collapsed to a single `other`,
§4.3). -/
inductive Role where
  | self
  | other (name : String)
deriving DecidableEq, Repr

/-- The participant metadata (spec §3, `ParticipantSet`): speaker display
name to message count, plus the group flag. -/
structure ParticipantSet where
  participants : List (String × Nat)
  is_group : Bool
deriving DecidableEq, Repr

/-- The full resolution result: the matched self speaker, the participant
metadata, and the role-annotated records. -/
structure ResolvedOutput where
  self_speaker : String
  participantSet : ParticipantSet
  records : List (Role × MessageRecord)
deriving DecidableEq, Repr

/-- How many messages a given speaker authored. -/
def countMessages (records : List MessageRecord) (s : String) : Nat :=
  (records.filter (fun r => r.speaker_name == s)).length

/-- Modelled from the spec: the ParticipantResolver (§4.3).  Resolves the
declared `self_name` against observed speakers (failing with
`SelfNameNotFound` when nothing matches), sets `is_group` when the distinct
non-self identities exceed one, annotates each record with its role, and,
when a `target_person` filter is supplied, keeps only messages from self
and that one target. -/
def resolveParticipants (records : List MessageRecord) (self_name : String)
    (target_person : Option String) : Except ParseError ResolvedOutput :=
  let speakers := observedSpeakers records
  match findSelf self_name speakers with
  | none => .error .selfNameNotFound
  | some selfSp =>
    let nonSelf := speakers.filter (fun s => s ≠ selfSp)
    let annotated := records.map (fun r =>
      (if r.speaker_name == selfSp then Role.self else Role.other r.speaker_name, r))
    let kept := match target_person with
      | some t => annotated.filter (fun p => p.1 == Role.self || p.2.speaker_name == t)
      | none => annotated
    .ok ⟨selfSp, ⟨speakers.map (fun s => (s, countMessages records s)), 1 < nonSelf.length⟩, kept⟩

/-! ## TimingAnalyzer -/

/-- The five fixed time-of-day windows (spec §3/§4.4 and the project
guide's Timing Recommendation table). -/
inductive TimeBucket where
  | early_morning
  | morning
  | afternoon
  | evening
  | night
deriving DecidableEq, Repr

/-- Modelled from the spec and the project guide's table: bucket an
hour-of-day into the five windows — early_morning 6–9, morning 9–12,
afternoon 12–18, evening 18–22, night 22–6 wrapping midnight. -/
def hourBucket (h : Nat) : TimeBucket :=
  if 6 ≤ h ∧ h < 9 then .early_morning
  else if 9 ≤ h ∧ h < 12 then .morning
  else if 12 ≤ h ∧ h < 18 then .afternoon
  else if 18 ≤ h ∧ h < 22 then .evening
  else .night

/-- A role-annotated, possibly timestamped message as the TimingAnalyzer
sees it; the timestamp is in minutes since an epoch midnight. -/
structure TimedMessage where
  role : Role
  timestamp : Option Nat
deriving DecidableEq, Repr

/-- One latency sample (spec §3, `TimingSample`): the bucket of the
triggering `other` message and the latency in minutes. -/
structure TimingSample where
  bucket : TimeBucket
  latency : Nat
deriving DecidableEq, Repr

/-- Modelled from the spec: one step of the timing scan (§4.4).  The state
is the collected samples plus the pending `other` timestamp.  A timestamped
`other` message becomes the pending trigger; the next timestamped `self`
message closes the pair, emitting one sample when the elapsed time is
positive and within the outlier cap, and discarding the pair otherwise.
Records lacking a timestamp are skipped without breaking the scan. -/
def timingStep (cap : Nat) (st : List TimingSample × Option Nat)
    (m : TimedMessage) : List TimingSample × Option Nat :=
  match m.timestamp with
  | none => st
  | some t =>
    match m.role with
    | .other _ => (st.1, some t)
    | .self =>
      match st.2 with
      | none => st
      | some ot =>
        if 0 < t - ot ∧ t - ot ≤ cap then
          (st.1 ++ [⟨hourBucket (ot / 60 % 24), t - ot⟩], none)
        else (st.1, none)

/-- Modelled from the spec: the TimingAnalyzer's sample extraction pass
(§4.4): scan the role-annotated records in order and collect the
other→self latency samples, bucketed by the triggering message's hour and
filtered by the outlier cap `cap` (in minutes). -/
def extractSamples (cap : Nat) (msgs : List TimedMessage) : List TimingSample :=
  (msgs.foldl (timingStep cap) ([], none)).1

/-! ## Frontend: `api.js` / `PersonaPage.jsx` -/

/-- One multipart form field appended by the frontend API client. -/
structure FormField where
  name : String
  value : String
deriving DecidableEq, Repr

/-- Embeds `personaAPI.createFromKakao` from `frontend/src/api.js`: the
multipart form fields appended, in order, before the POST to
`/persona/create-from-kakao`.  `description` and `icon` are appended only
when non-empty (JS truthiness of the default `''`). -/
def createFromKakaoForm (file userId name myName : String) (maxExamples : Nat)
    (category description icon : String) : List FormField :=
  [⟨"file", file⟩, ⟨"user_id", userId⟩, ⟨"name", name⟩, ⟨"my_name", myName⟩,
   ⟨"max_examples", toString maxExamples⟩, ⟨"category", category⟩] ++
  (if description ≠ "" then [⟨"description", description⟩] else []) ++
  (if icon ≠ "" then [⟨"icon", icon⟩] else [])

/-- Embeds the `fileData` state of `PersonaPage.jsx` (file-upload mode).
The selected file is represented by an opaque string token. -/
structure FileData where
  user_id : String
  name : String
  my_name : String
  target_person : String
  file : Option String
deriving DecidableEq, Repr

/-- Embeds the request `handleFileSubmit` issues for a given `fileData`:
`createFromKakao(file, user_id, name, my_name)` with the remaining
arguments left at their JS defaults (`maxExamples = 50`,
`category = 'other'`, `description = ''`, `icon = ''`).  Returns `none`
when no file is selected (the handler sets an error and returns without a
request). -/
def handleFileSubmitRequest (fd : FileData) : Option (List FormField) :=
  match fd.file with
  | none => none
  | some f => some (createFromKakaoForm f fd.user_id fd.name fd.my_name 50 "other" "" "")

/-- Embeds the parse-kakao response consumed by `handleFileSelect`
(`total_messages`, `detected_names`, `is_group_chat`, `participants`,
`chat_examples` as role/content pairs). -/
structure ParsePreview where
  total_messages : Nat
  detected_names : List String
  is_group_chat : Bool
  participants : List (String × Nat)
  chat_examples : List (String × String)
deriving DecidableEq, Repr

/-- Embeds the file-mode React state of `PersonaPage.jsx`. -/
structure PersonaFileState where
  fileData : FileData
  parsedPreview : Option ParsePreview
  detectedNames : List String
  isGroupChat : Bool
  participants : List (String × Nat)
  creating : Bool
  error : String
deriving DecidableEq, Repr

/-- The initial React state: `useState` initializers of `PersonaPage.jsx`. -/
def initPersonaFileState : PersonaFileState :=
  ⟨⟨"", "", "나", "", none⟩, none, [], false, [], false, ""⟩

/-- Embeds `handleFileSelect`: a no-op when no file is chosen; otherwise
stores the file, clears the error, the previous preview, the group flag and
the participant state, and then parses — a successful parse installs the
preview and its metadata, a failed parse only sets the error message.  The
backend call is modelled synchronously by the function `parse`. -/
def selectFileStep (parse : String → Except String ParsePreview)
    (st : PersonaFileState) (file : Option String) : PersonaFileState :=
  match file with
  | none => st
  | some f =>
    let cleared : PersonaFileState :=
      { st with
        fileData := { st.fileData with file := some f },
        error := "", parsedPreview := none, isGroupChat := false, participants := [] }
    match parse f with
    | .ok res =>
      { cleared with
        parsedPreview := some res, detectedNames := res.detected_names,
        isGroupChat := res.is_group_chat, participants := res.participants }
    | .error e => { cleared with error := e }

/-- Embeds the submit button's `disabled={creating || !parsedPreview}`:
the form can be submitted exactly when this is `true`. -/
def submitEnabled (st : PersonaFileState) : Bool :=
  !st.creating && st.parsedPreview.isSome

/-- Embeds `handleFileSubmit`, guarded by the submit button: a disabled
button submits nothing; with no file selected the handler errors without a
request; otherwise the create-from-kakao request is sent (second component:
the submitted file and its form), and on server success all file-mode state
is reset.  The server outcome is the parameter `outcome`. -/
def submitStep (st : PersonaFileState) (outcome : Except String Unit) :
    PersonaFileState × Option (String × List FormField) :=
  if submitEnabled st then
    match st.fileData.file with
    | none => ({ st with error := "카카오톡 대화 파일을 선택해주세요" }, none)
    | some f =>
      let req := createFromKakaoForm f st.fileData.user_id st.fileData.name
        st.fileData.my_name 50 "other" "" ""
      match outcome with
      | .ok _ =>
        ({ st with
           fileData := ⟨"", "", "나", "", none⟩, parsedPreview := none,
           isGroupChat := false, participants := [], error := "" }, some (f, req))
      | .error e => ({ st with error := e }, some (f, req))
  else (st, none)

/-- The user-interface events of the persona page's file mode. -/
inductive PageEvent where
  | selectFile (file : Option String)
  | setUserId (s : String)
  | setName (s : String)
  | setMyName (s : String)
  | setTargetPerson (s : String)
  | submit (outcome : Except String Unit)

/-- One page event applied to the state; the second component is the
create-from-kakao request the event emitted, if any. -/
def pageStep (parse : String → Except String ParsePreview)
    (st : PersonaFileState) :
    PageEvent → PersonaFileState × Option (String × List FormField)
  | .selectFile file => (selectFileStep parse st file, none)
  | .setUserId s => ({ st with fileData := { st.fileData with user_id := s } }, none)
  | .setName s => ({ st with fileData := { st.fileData with name := s } }, none)
  | .setMyName s => ({ st with fileData := { st.fileData with my_name := s } }, none)
  | .setTargetPerson s =>
      ({ st with fileData := { st.fileData with target_person := s } }, none)
  | .submit outcome => submitStep st outcome

/-- One page event applied to a state/request-log pair: the new state, and
the log extended with the request the event emitted, if any. -/
def pageTrace (parse : String → Except String ParsePreview)
    (acc : PersonaFileState × List (String × List FormField)) (e : PageEvent) :
    PersonaFileState × List (String × List FormField) :=
  ((pageStep parse acc.1 e).1, acc.2 ++ (pageStep parse acc.1 e).2.toList)

/-- Run the persona page from its initial state over a list of events,
collecting every create-from-kakao request that was submitted. -/
def runPersonaPage (parse : String → Except String ParsePreview)
    (events : List PageEvent) :
    PersonaFileState × List (String × List FormField) :=
  events.foldl (pageTrace parse) (initPersonaFileState, [])

/-- The preview-consistency invariant: whenever a parse preview is shown,
it is the successful parse result of the currently selected file. -/
def previewConsistent (parse : String → Except String ParsePreview)
    (st : PersonaFileState) : Prop :=
  ∀ p, st.parsedPreview = some p →
    ∃ f, st.fileData.file = some f ∧ parse f = Except.ok p

/-! ## Concrete instances used by the witnesses -/

/-- A concrete line classifier: two recognized header lines, one with a
parsed timestamp and one whose timestamp failed to parse. -/
def classifyW (l : String) : Option HeaderInfo :=
  if l = "H1" then some ⟨"alice", some 540, "hello"⟩
  else if l = "H2" then some ⟨"bob", none, "hey"⟩
  else none

/-- A concrete normalized input: an export banner, then two messages, the
first with two continuation lines (one blank). -/
def linesW : List String := ["banner", "H1", "world", "", "H2", "again"]

/-- The segmentation of `linesW` under `classifyW`. -/
def recordsW : List MessageRecord :=
  [⟨"alice", some 540, ["hello", "world", ""]⟩, ⟨"bob", none, ["hey", "again"]⟩]

/-- A codec table under which no candidate decodes. -/
def decodeNoneW : String → List Nat → Option (List Char) := fun _ _ => none

/-- A codec table under which only the BOM-carrying UTF-8 form decodes. -/
def decodeBomW : String → List Nat → Option (List Char) :=
  fun e _ => if e = "utf-8-sig" then some ['h', 'i'] else none

/-- A codec table whose decoded text still carries a BOM, a CRLF and a
lone CR, to exercise the normalization pass. -/
def decodeRawW : String → List Nat → Option (List Char) :=
  fun e _ =>
    if e = "utf-8-sig" then some ['\uFEFF', 'a', '\r', '\n', 'b', '\r', 'c']
    else none

/-- A codec table under which only the BOM-sensing UTF-16 form decodes. -/
def decodeUtf16W : String → List Nat → Option (List Char) :=
  fun e _ => if e = "utf-16" then some ['h', 'i'] else none

/-- A parsed file whose only speaker is `bob`. -/
def recordsBobW : List MessageRecord := [⟨"bob", none, ["x"]⟩]

/-- A parsed file with exactly two distinct speakers. -/
def recordsPairW : List MessageRecord :=
  [⟨"alice", none, ["a"]⟩, ⟨"bob", none, ["b"]⟩]

/-- The resolution of `recordsPairW` with `alice` as the self name. -/
def outPairW : ResolvedOutput :=
  ⟨"alice", ⟨[("alice", 1), ("bob", 1)], false⟩,
   [(Role.self, ⟨"alice", none, ["a"]⟩), (Role.other "bob", ⟨"bob", none, ["b"]⟩)]⟩

/-- A filled-in persona form with a group-chat target selected. -/
def fdW : FileData := ⟨"u1", "nm", "나", "pick", some "FILE"⟩

/-- A concrete parse-kakao preview. -/
def previewW : ParsePreview := ⟨3, ["bob"], false, [("bob", 2)], [("user", "hi")]⟩

/-- A backend model that parses every file to `previewW`. -/
def parseOkW : String → Except String ParsePreview := fun _ => Except.ok previewW

/-- Select a file, then submit, with the server accepting. -/
def eventsW : List PageEvent :=
  [PageEvent.selectFile (some "chat.txt"), PageEvent.submit (Except.ok ())]

/-- The request `eventsW` submits. -/
def formW : List FormField := createFromKakaoForm "chat.txt" "" "" "나" 50 "other" "" ""

/-- A backend model that rejects every file. -/
def parseErrW : String → Except String ParsePreview := fun _ => Except.error "bad"

/-- A page state showing a preview, with the submit button enabled. -/
def stPreviewW : PersonaFileState :=
  ⟨⟨"u", "n", "나", "", some "chat.txt"⟩, some previewW, ["bob"], false, [("bob", 2)], false, ""⟩

/-! ## Theorems: EncodingDetector -/

/-- When every candidate fails, the whole scan fails. -/
theorem tryEncodings_eq_none (decode : String → List Nat → Option (List Char))
    (bytes : List Nat) :
    ∀ es : List String, (∀ e ∈ es, decode e bytes = none) →
    tryEncodings decode bytes es = none := by
  intro es
  induction es with
  | nil => intro _; rfl
  | cons e rest ih =>
    intro h
    have he : decode e bytes = none := h e (List.mem_cons_self e rest)
    simp only [tryEncodings, he]
    exact ih fun x hx => h x (List.mem_cons_of_mem e hx)

/-- A successful scan returns a candidate from the list together with its
own clean decode of the byte stream. -/
theorem tryEncodings_some (decode : String → List Nat → Option (List Char))
    (bytes : List Nat) :
    ∀ (es : List String) (e : String) (t : List Char),
    tryEncodings decode bytes es = some (e, t) →
    e ∈ es ∧ decode e bytes = some t := by
  intro es
  induction es with
  | nil => intro e t h; cases h
  | cons x rest ih =>
    intro e t h
    rcases hx : decode x bytes with _ | tx
    · rw [tryEncodings, hx] at h
      obtain ⟨hmem, hdec⟩ := ih e t h
      exact ⟨List.mem_cons_of_mem x hmem, hdec⟩
    · rw [tryEncodings, hx] at h
      obtain ⟨rfl, rfl⟩ : x = e ∧ tx = t := by
        constructor <;> cases h <;> rfl
      exact ⟨List.mem_cons_self x rest, hx⟩

/-- Claim C2. For every byte input for which no candidate encoding decodes
the full byte stream, the EncodingDetector returns an `UnsupportedEncoding`
error carrying the attempted encoding list, and never a success result. -/
theorem detectEncoding_fail_closed
    (decode : String → List Nat → Option (List Char)) (bytes : List Nat)
    (h : ∀ e ∈ ENCODINGS, decode e bytes = none) :
    detectEncoding decode bytes = .error (.unsupportedEncoding ENCODINGS) ∧
    ∀ r : DecodedText, detectEncoding decode bytes ≠ .ok r := by
  have h0 : tryEncodings decode bytes ENCODINGS = none :=
    tryEncodings_eq_none decode bytes ENCODINGS h
  refine ⟨by simp [detectEncoding, h0], ?_⟩
  intro r hr
  simp [detectEncoding, h0] at hr

/-- Witness for C2: under a codec table decoding nothing, the detector
fails with the attempted list. -/
theorem detectEncoding_fail_closed_witness :
    detectEncoding decodeNoneW [255] = .error (.unsupportedEncoding ENCODINGS) :=
  (detectEncoding_fail_closed decodeNoneW [255] (fun _ _ => rfl)).1

/-- Claim C3. A valid input carrying a BOM is decoded by the BOM-carrying
candidate, which is selected over any BOM-less alternative because
candidates are tried in order with the BOM-carrying form first and the
first clean full-stream decode is accepted: `utf-8-sig` is tried before
`utf-8`, so whenever it decodes, it is the selected encoding. -/
theorem detectEncoding_bom_first
    (decode : String → List Nat → Option (List Char)) (bytes : List Nat)
    (t : List Char) (h : decode "utf-8-sig" bytes = some t) :
    detectEncoding decode bytes = .ok ⟨normalizeText t, "utf-8-sig"⟩ := by
  simp [detectEncoding, ENCODINGS, tryEncodings, h]

/-- Witness for C3: with only the BOM-carrying UTF-8 candidate decoding,
the detector selects it. -/
theorem detectEncoding_bom_first_witness :
    detectEncoding decodeBomW [239, 187, 191] = .ok ⟨['h', 'i'], "utf-8-sig"⟩ :=
  detectEncoding_bom_first decodeBomW [239, 187, 191] ['h', 'i'] rfl

/-- Mapping `crToLf` never produces a carriage return. -/
theorem crToLf_ne_cr (c : Char) : crToLf c ≠ '\r' := by
  rw [crToLf]
  split
  · decide
  · assumption

/-- Mapping `crToLf` produces a BOM character only from one. -/
theorem crToLf_eq_bom (c : Char) (h : crToLf c = '\uFEFF') : c = '\uFEFF' := by
  rw [crToLf] at h
  split at h
  · cases h
  · exact h

/-- The head of a `map` is the mapped head. -/
theorem head?_map_crToLf (l : List Char) :
    (l.map crToLf).head? = l.head?.map crToLf := by
  cases l <;> rfl

/-- Collapsing CRLF pairs leaves the head either unchanged or an LF. -/
theorem collapseCRLF_head? (cs : List Char) :
    (collapseCRLF cs).head? = cs.head? ∨ (collapseCRLF cs).head? = some '\n' := by
  rw [collapseCRLF.eq_def]
  split
  · right; rfl
  · left; rfl
  · left; rfl

/-- After stripping, the head is not a BOM character. -/
theorem stripLeadingBOM_head? (cs : List Char) (a : Char)
    (h : (stripLeadingBOM cs).head? = some a) : a ≠ '\uFEFF' := by
  induction cs with
  | nil => cases h
  | cons c rest ih =>
    rw [stripLeadingBOM, List.dropWhile_cons] at h
    by_cases hc : c = '\uFEFF'
    · rw [if_pos (by simp [hc])] at h
      exact ih h
    · rw [if_neg (by simp [hc])] at h
      cases h
      exact hc

/-- The normalized text contains no carriage return. -/
theorem normalizeText_no_cr (cs : List Char) : '\r' ∉ normalizeText cs := by
  intro hmem
  rw [normalizeText] at hmem
  obtain ⟨x, _, hx⟩ := List.mem_map.mp hmem
  exact crToLf_ne_cr x hx

/-- The normalized text does not start with a BOM character. -/
theorem normalizeText_head? (cs : List Char) :
    (normalizeText cs).head? ≠ some '\uFEFF' := by
  intro h
  rw [normalizeText, head?_map_crToLf] at h
  obtain ⟨a, ha, hfa⟩ := Option.map_eq_some'.mp h
  have haBom : a = '\uFEFF' := crToLf_eq_bom a hfa
  rcases collapseCRLF_head? (stripLeadingBOM cs) with h1 | h1
  · rw [h1] at ha
    exact stripLeadingBOM_head? cs a ha haBom
  · rw [h1] at ha
    cases ha
    cases haBom

/-- Claim C8. Every successful detection returns text with any leading BOM
character stripped and no CR left anywhere: all line terminators were
rewritten to the single-LF convention. -/
theorem detectEncoding_normalized
    (decode : String → List Nat → Option (List Char)) (bytes : List Nat)
    (r : DecodedText) (h : detectEncoding decode bytes = .ok r) :
    '\r' ∉ r.content ∧ r.content.head? ≠ some '\uFEFF' := by
  rcases htry : tryEncodings decode bytes ENCODINGS with _ | ⟨e, t⟩
  · rw [detectEncoding, htry] at h
    cases h
  · rw [detectEncoding, htry] at h
    have hr : r = ⟨normalizeText t, e⟩ := by
      cases h
      rfl
    subst hr
    exact ⟨normalizeText_no_cr t, normalizeText_head? t⟩

/-- Witness for C8: a decode carrying a BOM, a CRLF and a lone CR comes
back fully normalized. -/
theorem detectEncoding_normalized_witness :
    '\r' ∉ (['a', '\n', 'b', '\n', 'c'] : List Char) ∧
    (['a', '\n', 'b', '\n', 'c'] : List Char).head? ≠ some '\uFEFF' :=
  detectEncoding_normalized decodeRawW [1] ⟨['a', '\n', 'b', '\n', 'c'], "utf-8-sig"⟩ rfl

/-! ## Theorems: MessageSegmenter -/

/-- The function flattenContents distributes over append. -/
theorem flattenContents_append (xs ys : List MessageRecord) :
    flattenContents (xs ++ ys) = flattenContents xs ++ flattenContents ys := by
  simp [flattenContents]

/-- The content of the machine's output grows by exactly the contributed
body of each processed line: headers contribute their inline message text,
later lines contribute themselves, lines before the first header are
dropped. -/
theorem segRun_flatten (classify : String → Option HeaderInfo) :
    ∀ (ls : List String) (acc : List MessageRecord) (cur : Option MessageRecord),
    flattenContents (segOut (segRun classify (acc, cur) ls)) =
      flattenContents (segOut (acc, cur)) ++ processedLines classify cur.isSome ls := by
  intro ls
  induction ls with
  | nil =>
    intro acc cur
    simp [segRun, processedLines]
  | cons l rest ih =>
    intro acc cur
    rcases hcl : classify l with _ | hd
    · rcases cur with _ | m
      · have hstep : segmentStep classify (acc, none) l = (acc, none) := by
          simp [segmentStep, hcl]
        have hrun : segRun classify (acc, none) (l :: rest) =
            segRun classify (acc, none) rest := by
          rw [segRun, List.foldl_cons, hstep]; rfl
        rw [hrun, ih acc none]
        have hpl : processedLines classify false (l :: rest) =
            processedLines classify false rest := by
          simp [processedLines, List.dropWhile_cons, hcl]
        simp [hpl]
      · have hstep : segmentStep classify (acc, some m) l =
            (acc, some { m with content := m.content ++ [l] }) := by
          simp [segmentStep, hcl]
        have hrun : segRun classify (acc, some m) (l :: rest) =
            segRun classify (acc, some { m with content := m.content ++ [l] }) rest := by
          rw [segRun, List.foldl_cons, hstep]; rfl
        rw [hrun, ih acc (some { m with content := m.content ++ [l] })]
        simp [segOut, flattenContents, processedLines, lineBody, hcl]
    · have hstep : segmentStep classify (acc, cur) l =
          (acc ++ cur.toList, some ⟨hd.speaker, hd.timestamp, [hd.body]⟩) := by
        simp [segmentStep, hcl]
      have hrun : segRun classify (acc, cur) (l :: rest) =
          segRun classify (acc ++ cur.toList, some ⟨hd.speaker, hd.timestamp, [hd.body]⟩) rest := by
        rw [segRun, List.foldl_cons, hstep]; rfl
      rw [hrun, ih (acc ++ cur.toList) (some ⟨hd.speaker, hd.timestamp, [hd.body]⟩)]
      cases cur <;>
        simp [segOut, flattenContents, processedLines, lineBody, hcl, List.dropWhile_cons]

/-- The machine produces exactly one record per recognized header line. -/
theorem segRun_length (classify : String → Option HeaderInfo) :
    ∀ (ls : List String) (acc : List MessageRecord) (cur : Option MessageRecord),
    (segOut (segRun classify (acc, cur) ls)).length =
      (segOut (acc, cur)).length + (ls.filter (fun l => (classify l).isSome)).length := by
  intro ls
  induction ls with
  | nil =>
    intro acc cur
    simp [segRun]
  | cons l rest ih =>
    intro acc cur
    rcases hcl : classify l with _ | hd
    · rcases cur with _ | m
      · have hrun : segRun classify (acc, none) (l :: rest) =
            segRun classify (acc, none) rest := by
          rw [segRun, List.foldl_cons]
          simp [segmentStep, hcl]
          rfl
        rw [hrun, ih acc none]
        simp [List.filter_cons, hcl]
      · have hrun : segRun classify (acc, some m) (l :: rest) =
            segRun classify (acc, some { m with content := m.content ++ [l] }) rest := by
          rw [segRun, List.foldl_cons]
          simp [segmentStep, hcl]
          rfl
        rw [hrun, ih acc (some { m with content := m.content ++ [l] })]
        simp [segOut, List.filter_cons, hcl]
    · have hrun : segRun classify (acc, cur) (l :: rest) =
          segRun classify (acc ++ cur.toList, some ⟨hd.speaker, hd.timestamp, [hd.body]⟩) rest := by
        rw [segRun, List.foldl_cons]
        simp [segmentStep, hcl]
        rfl
      rw [hrun, ih (acc ++ cur.toList) (some ⟨hd.speaker, hd.timestamp, [hd.body]⟩)]
      cases cur <;> simp [segOut, List.filter_cons, hcl] <;> omega

/-- Claim C1. For every normalized input, segmentation preserves line order
and neither splits nor merges messages: the output has exactly one record
per recognized header line, and concatenating all record contents in order
reproduces, exactly once each, every line from the first header on — each
header line as the message text it carries, every other (continuation)
line verbatim.  In particular every non-header, non-blank line of the
input after the first header appears in the reconstruction exactly once,
with no duplication and no loss. -/
theorem segmentMessages_round_trip
    (classify : String → Option HeaderInfo) (lines : List String)
    (rs : List MessageRecord) (h : segmentMessages classify lines = .ok rs) :
    rs.length = (lines.filter (fun l => (classify l).isSome)).length ∧
    flattenContents rs =
      (lines.dropWhile (fun l => (classify l).isNone)).map (lineBody classify) := by
  have hrs : rs = segOut (segRun classify ([], none) lines) := by
    rw [segmentMessages] at h
    split at h
    · cases h
    · cases h
      rfl
  subst hrs
  refine ⟨?_, ?_⟩
  · have hl := segRun_length classify lines [] none
    simpa [segOut] using hl
  · have hf := segRun_flatten classify lines [] none
    simpa [segOut, flattenContents, processedLines] using hf

/-- Witness for C1: the two-message input `linesW` segments into
`recordsW`, which satisfies both round-trip equations. -/
theorem segmentMessages_round_trip_witness :
    recordsW.length = (linesW.filter (fun l => (classifyW l).isSome)).length ∧
    flattenContents recordsW =
      (linesW.dropWhile (fun l => (classifyW l).isNone)).map (lineBody classifyW) :=
  segmentMessages_round_trip classifyW linesW recordsW rfl

/-- With no recognizable header anywhere, the machine never leaves its
initial state. -/
theorem segRun_no_header (classify : String → Option HeaderInfo) :
    ∀ ls : List String, (∀ l ∈ ls, classify l = none) →
    segRun classify ([], none) ls = ([], none) := by
  intro ls
  induction ls with
  | nil => intro _; rfl
  | cons l rest ih =>
    intro h
    have hl : classify l = none := h l (List.mem_cons_self l rest)
    have hstep : segmentStep classify ([], none) l = ([], none) := by
      simp [segmentStep, hl]
    show segRun classify (segmentStep classify ([], none) l) rest = ([], none)
    rw [hstep]
    exact ih fun x hx => h x (List.mem_cons_of_mem l hx)

/-- Claim C7. When no message-header pattern is recognized on any line,
segmentation fails with `UnrecognizedFormat` instead of returning an empty
sequence as a success. -/
theorem segmentMessages_unrecognized
    (classify : String → Option HeaderInfo) (lines : List String)
    (h : ∀ l ∈ lines, classify l = none) :
    segmentMessages classify lines = .error .unrecognizedFormat := by
  rw [segmentMessages, segRun_no_header classify lines h]
  rfl

/-- Witness for C7: a classifier recognizing nothing fails on a two-line
file. -/
theorem segmentMessages_unrecognized_witness :
    segmentMessages (fun _ => none) ["a", "b"] = .error .unrecognizedFormat :=
  segmentMessages_unrecognized (fun _ => none) ["a", "b"] (fun _ _ => rfl)

/-! ## Theorems: ParticipantResolver -/

/-- Claim C5. When the declared self name matches no observed speaker —
neither exactly nor under the trimmed/case-insensitive fallback —
resolution fails with `SelfNameNotFound` instead of silently assigning
the self role to an arbitrary speaker. -/
theorem resolveParticipants_selfNameNotFound
    (records : List MessageRecord) (self_name : String) (target : Option String)
    (h : ∀ s ∈ observedSpeakers records,
      s ≠ self_name ∧ normName s ≠ normName self_name) :
    resolveParticipants records self_name target = .error .selfNameNotFound := by
  have h1 : (observedSpeakers records).find? (fun s => s == self_name) = none := by
    rw [List.find?_eq_none]
    intro x hx
    simp only [beq_iff_eq]
    exact (h x hx).1
  have h2 : (observedSpeakers records).find?
      (fun s => normName s == normName self_name) = none := by
    rw [List.find?_eq_none]
    intro x hx
    simp only [beq_iff_eq]
    exact (h x hx).2
  have hf : findSelf self_name (observedSpeakers records) = none := by
    rw [findSelf, h1, h2]
  simp [resolveParticipants, hf]

/-- Witness for C5: a file whose only speaker is `bob` rejects the self
name `alice`. -/
theorem resolveParticipants_selfNameNotFound_witness :
    resolveParticipants recordsBobW "alice" none = .error .selfNameNotFound :=
  resolveParticipants_selfNameNotFound recordsBobW "alice" none (by decide)

/-- A matched self speaker is one of the observed speakers. -/
theorem findSelf_mem (self_name : String) (speakers : List String) (s : String)
    (h : findSelf self_name speakers = some s) : s ∈ speakers := by
  rw [findSelf] at h
  rcases h1 : speakers.find? (fun x => x == self_name) with _ | x
  · rw [h1] at h
    exact List.mem_of_find?_eq_some h
  · rw [h1] at h
    cases h
    exact List.mem_of_find?_eq_some h1

/-- Filtering away an absent element changes nothing. -/
theorem filter_ne_of_not_mem (l : List String) (a : String) (ha : a ∉ l) :
    l.filter (fun s => s ≠ a) = l := by
  rw [List.filter_eq_self]
  intro x hx
  simp only [ne_eq, decide_eq_true_eq]
  rintro rfl
  exact ha hx

/-- In a duplicate-free list, filtering away one present element drops
exactly one entry. -/
theorem length_filter_ne_of_nodup (l : List String) (a : String)
    (hn : l.Nodup) (ha : a ∈ l) :
    (l.filter (fun s => s ≠ a)).length = l.length - 1 := by
  induction l with
  | nil => cases ha
  | cons b t ih =>
    rcases List.mem_cons.mp ha with rfl | hat
    · have hbt : a ∉ t := (List.nodup_cons.mp hn).1
      rw [List.filter_cons, if_neg (by simp), filter_ne_of_not_mem t a hbt]
      simp
    · have hb : b ≠ a := by
        rintro rfl
        exact (List.nodup_cons.mp hn).1 hat
      have hrec := ih (List.nodup_cons.mp hn).2 hat
      have hpos : 0 < t.length := List.length_pos.mpr (List.ne_nil_of_mem hat)
      rw [List.filter_cons, if_pos (by simp [hb])]
      simp only [List.length_cons]
      rw [hrec]
      omega

/-- Claim C6. The resolved `is_group` flag is true exactly when the distinct
non-self speakers exceed one: a file with exactly two distinct speakers
(one of them the matched self) resolves with `is_group = false`, and three
or more distinct speakers resolve with `is_group = true`. -/
theorem resolveParticipants_is_group
    (records : List MessageRecord) (self_name : String) (target : Option String)
    (out : ResolvedOutput)
    (h : resolveParticipants records self_name target = .ok out) :
    (out.participantSet.is_group = true ↔
      1 < ((observedSpeakers records).filter
        (fun s => s ≠ out.self_speaker)).length) ∧
    ((observedSpeakers records).length = 2 →
      out.participantSet.is_group = false) ∧
    (3 ≤ (observedSpeakers records).length →
      out.participantSet.is_group = true) := by
  rcases hf : findSelf self_name (observedSpeakers records) with _ | selfSp
  · simp [resolveParticipants, hf] at h
  · rw [resolveParticipants] at h
    simp only [hf] at h
    cases h
    have hmem : selfSp ∈ observedSpeakers records :=
      findSelf_mem self_name (observedSpeakers records) selfSp hf
    have hnd : (observedSpeakers records).Nodup := by
      rw [observedSpeakers]
      exact List.nodup_dedup _
    have hlen := length_filter_ne_of_nodup (observedSpeakers records) selfSp hnd hmem
    refine ⟨by simp, ?_, ?_⟩
    · intro h2
      simp only [ParticipantSet.is_group, decide_eq_false_iff_not, not_lt]
      omega
    · intro h3
      simp only [ParticipantSet.is_group, decide_eq_true_eq]
      omega

/-- Witness for C6: two distinct speakers with `alice` as self resolve as
a non-group chat. -/
theorem resolveParticipants_is_group_witness :
    outPairW.participantSet.is_group = false :=
  (resolveParticipants_is_group recordsPairW "alice" none outPairW rfl).2.1 rfl

/-! ## Theorems: TimingAnalyzer -/

/-- Claim C4. An `other` message at 09:00 (minute 540) answered by `self` at
09:20 (minute 560) yields exactly one sample, in the `morning` bucket with
a 20-minute latency — for any outlier cap admitting 20 minutes; and an
other→self pair whose elapsed time exceeds the cap yields zero samples. -/
theorem extractSamples_morning_scenario (cap : Nat) (hcap : 20 ≤ cap) :
    extractSamples cap [⟨Role.other "k", some 540⟩, ⟨Role.self, some 560⟩] =
      [⟨TimeBucket.morning, 20⟩] ∧
    ∀ d, cap < d →
      extractSamples cap [⟨Role.other "k", some 540⟩, ⟨Role.self, some (540 + d)⟩] = [] := by
  constructor
  · have hpos : 0 < 560 - 540 ∧ 560 - 540 ≤ cap := ⟨by norm_num, by simpa using hcap⟩
    simp only [extractSamples, List.foldl, timingStep, if_pos hpos]
    rfl
  · intro d hd
    have hneg : ¬(0 < 540 + d - 540 ∧ 540 + d - 540 ≤ cap) := by
      intro hc
      omega
    simp only [extractSamples, List.foldl, timingStep, if_neg hneg]

/-- Witness for C4: with a one-day cap, the 09:00→09:20 pair gives the
single morning 20-minute sample, and a pair elapsing 1441 minutes gives
none. -/
theorem extractSamples_morning_scenario_witness :
    extractSamples 1440 [⟨Role.other "k", some 540⟩, ⟨Role.self, some 560⟩] =
      [⟨TimeBucket.morning, 20⟩] ∧
    extractSamples 1440 [⟨Role.other "k", some 540⟩, ⟨Role.self, some (540 + 1441)⟩] = [] :=
  ⟨(extractSamples_morning_scenario 1440 (by norm_num)).1,
   (extractSamples_morning_scenario 1440 (by norm_num)).2 1441 (by norm_num)⟩

/-! ## Theorems: frontend -/

/-- Claim C9. Every create-from-kakao submission from the persona page sends
exactly the fields file, user_id, name and my_name plus the defaulted
max_examples and category — and nothing else: in particular, the
`target_person` picked in the group-chat participant list never affects
the request. -/
theorem handleFileSubmit_omits_target (fd : FileData) (f : String)
    (h : fd.file = some f) :
    handleFileSubmitRequest fd =
      some [⟨"file", f⟩, ⟨"user_id", fd.user_id⟩, ⟨"name", fd.name⟩,
            ⟨"my_name", fd.my_name⟩, ⟨"max_examples", "50"⟩,
            ⟨"category", "other"⟩] ∧
    ∀ t, handleFileSubmitRequest { fd with target_person := t } =
      handleFileSubmitRequest fd := by
  constructor
  · rw [handleFileSubmitRequest, h]
    rfl
  · intro t
    rfl

/-- Witness for C9: a filled-in form with a target person selected submits
the six fields only, and changing the target changes nothing. -/
theorem handleFileSubmit_omits_target_witness :
    handleFileSubmitRequest fdW =
      some [⟨"file", "FILE"⟩, ⟨"user_id", "u1"⟩, ⟨"name", "nm"⟩,
            ⟨"my_name", "나"⟩, ⟨"max_examples", "50"⟩, ⟨"category", "other"⟩] ∧
    handleFileSubmitRequest { fdW with target_person := "bob" } =
      handleFileSubmitRequest fdW :=
  ⟨(handleFileSubmit_omits_target fdW "FILE" rfl).1,
   (handleFileSubmit_omits_target fdW "FILE" rfl).2 "bob"⟩

/-- A submit-enabled state is showing a preview. -/
theorem submitEnabled_preview (st : PersonaFileState)
    (h : submitEnabled st = true) : ∃ p, st.parsedPreview = some p := by
  rw [submitEnabled, Bool.and_eq_true] at h
  exact Option.isSome_iff_exists.mp h.2

/-- Every page event preserves preview consistency, and any request it
emits carries a file whose parse succeeded. -/
theorem pageStep_sound (parse : String → Except String ParsePreview)
    (st : PersonaFileState) (e : PageEvent)
    (hinv : previewConsistent parse st) :
    previewConsistent parse (pageStep parse st e).1 ∧
    ∀ fr, (pageStep parse st e).2 = some fr → ∃ p, parse fr.1 = Except.ok p := by
  cases e with
  | selectFile file =>
    refine ⟨?_, by intro fr h; simp [pageStep] at h⟩
    rcases file with _ | f
    · exact hinv
    · intro p hp
      rcases hparse : parse f with err | res
      · rw [pageStep] at hp
        simp only [selectFileStep, hparse] at hp
        cases hp
      · rw [pageStep] at hp
        simp only [selectFileStep, hparse] at hp
        cases hp
        refine ⟨f, ?_, hparse⟩
        rw [pageStep]
        simp only [selectFileStep, hparse]
  | setUserId s => exact ⟨fun p hp => hinv p hp, by intro fr h; simp [pageStep] at h⟩
  | setName s => exact ⟨fun p hp => hinv p hp, by intro fr h; simp [pageStep] at h⟩
  | setMyName s => exact ⟨fun p hp => hinv p hp, by intro fr h; simp [pageStep] at h⟩
  | setTargetPerson s =>
    exact ⟨fun p hp => hinv p hp, by intro fr h; simp [pageStep] at h⟩
  | submit outcome =>
    by_cases hen : submitEnabled st = true
    · rcases hfile : st.fileData.file with _ | f
      · constructor
        · intro p hp
          rw [pageStep] at hp
          simp only [submitStep, hen, if_true, hfile] at hp
          obtain ⟨f0, hf0, hpf0⟩ := hinv p hp
          rw [hfile] at hf0
          cases hf0
        · intro fr h
          rw [pageStep] at h
          simp only [submitStep, hen, if_true, hfile] at h
          exact Option.noConfusion h
      · obtain ⟨p0, hp0⟩ := submitEnabled_preview st hen
        obtain ⟨f0, hf0, hpf0⟩ := hinv p0 hp0
        have hff : f0 = f := by
          rw [hfile] at hf0
          cases hf0
          rfl
        subst hff
        cases outcome with
        | ok u =>
          constructor
          · intro p hp
            rw [pageStep] at hp
            simp only [submitStep, hen, if_true, hfile] at hp
            cases hp
          · intro fr h
            rw [pageStep] at h
            simp only [submitStep, hen, if_true, hfile] at h
            cases h
            exact ⟨p0, hpf0⟩
        | error err =>
          constructor
          · intro p hp
            rw [pageStep] at hp
            simp only [submitStep, hen, if_true, hfile] at hp
            obtain ⟨f1, hf1, hpf1⟩ := hinv p hp
            rw [hfile] at hf1
            cases hf1
            refine ⟨f0, ?_, hpf1⟩
            rw [pageStep]
            simp only [submitStep, hen, if_true, hfile]
          · intro fr h
            rw [pageStep] at h
            simp only [submitStep, hen, if_true, hfile] at h
            cases h
            exact ⟨p0, hpf0⟩
    · have hen' : submitEnabled st = false := by
        cases hb : submitEnabled st
        · rfl
        · exact absurd hb hen
      constructor
      · intro p hp
        rw [pageStep] at hp ⊢
        simp only [submitStep, hen', Bool.false_eq_true, if_false] at hp ⊢
        exact hinv p hp
      · intro fr h
        rw [pageStep] at h
        simp only [submitStep, hen', Bool.false_eq_true, if_false] at h
        exact Option.noConfusion h

/-- Running the page from a consistent state keeps consistency and only
logs requests whose file parsed successfully. -/
theorem runFold_sound (parse : String → Except String ParsePreview) :
    ∀ (evs : List PageEvent)
      (acc : PersonaFileState × List (String × List FormField)),
    previewConsistent parse acc.1 →
    (∀ fr ∈ acc.2, ∃ p, parse fr.1 = Except.ok p) →
    previewConsistent parse (evs.foldl (pageTrace parse) acc).1 ∧
    ∀ fr ∈ (evs.foldl (pageTrace parse) acc).2, ∃ p, parse fr.1 = Except.ok p := by
  intro evs
  induction evs with
  | nil => intro acc h1 h2; exact ⟨h1, h2⟩
  | cons e rest ih =>
    intro acc h1 h2
    rw [List.foldl_cons]
    apply ih
    · exact (pageStep_sound parse acc.1 e h1).1
    · intro fr hfr
      rw [pageTrace] at hfr
      rcases List.mem_append.mp hfr with hmem | hmem
      · exact h2 fr hmem
      · rcases ho : (pageStep parse acc.1 e).2 with _ | fr'
        · rw [ho] at hmem
          cases hmem
        · rw [ho] at hmem
          cases hmem with
          | head => exact (pageStep_sound parse acc.1 e h1).2 fr ho
          | tail _ hmem0 => cases hmem0

/-- Claim C10. A persona can be created from a file only after a successful
parse preview: a failed parse leaves the preview cleared (together with the
group flag and participant state), an enabled submit button implies a
present preview, and consequently every create-from-kakao request emitted
along any event trace carries a file whose parse succeeded. -/
theorem personaPage_submit_after_parse
    (parse : String → Except String ParsePreview) (events : List PageEvent) :
    (∀ fr ∈ (runPersonaPage parse events).2, ∃ p, parse fr.1 = Except.ok p) ∧
    (∀ (st : PersonaFileState) (f e : String), parse f = Except.error e →
      (selectFileStep parse st (some f)).parsedPreview = none ∧
      (selectFileStep parse st (some f)).isGroupChat = false ∧
      (selectFileStep parse st (some f)).participants = []) ∧
    (∀ st : PersonaFileState, submitEnabled st = true → st.parsedPreview ≠ none) := by
  refine ⟨?_, ?_, ?_⟩
  · exact (runFold_sound parse events (initPersonaFileState, [])
      (fun p hp => by cases hp) (by intro fr h; cases h)).2
  · intro st f e hparse
    simp [selectFileStep, hparse]
  · intro st hen hnone
    obtain ⟨p, hp⟩ := submitEnabled_preview st hen
    rw [hnone] at hp
    cases hp

/-- Witness for C10: with a rejecting backend, selecting a file clears the
preview, the group flag and the participant list; and a state showing a
preview has a non-null preview whenever the button is enabled. -/
theorem personaPage_submit_after_parse_witness :
    (selectFileStep parseErrW initPersonaFileState (some "f.txt")).parsedPreview = none ∧
    (selectFileStep parseErrW initPersonaFileState (some "f.txt")).isGroupChat = false ∧
    (selectFileStep parseErrW initPersonaFileState (some "f.txt")).participants = [] ∧
    stPreviewW.parsedPreview ≠ none :=
  ⟨((personaPage_submit_after_parse parseErrW []).2.1
      initPersonaFileState "f.txt" "bad" rfl).1,
   ((personaPage_submit_after_parse parseErrW []).2.1
      initPersonaFileState "f.txt" "bad" rfl).2.1,
   ((personaPage_submit_after_parse parseErrW []).2.1
      initPersonaFileState "f.txt" "bad" rfl).2.2,
   (personaPage_submit_after_parse parseErrW []).2.2 stPreviewW rfl⟩

end Talkpleganger
